import Mathlib

/-!
Verification of the version resolution and activation engine of
cursor-appimage-updater (a Python tool managing Cursor AppImage versions).

The Python sources are shallowly embedded: pure string processing is
translated to functions on `List Char` / `String`; the stateful parts
(cache file, filesystem, download, activation) are modelled as explicit
state passing over small state records.  Python `int(...)`, `str.strip()`,
`str.split()`, tuple comparison and `sorted(..., key=..., reverse=True)`
are modelled at the level the source relies on.

Source files embedded: cursor_updater/version.py, cursor_updater/download.py,
cursor_updater/ui.py.  The module cursor_updater/config.py is not part of
the available sources; the few constants taken from it are modelled from
the specification and marked as such in their doc comments.
-/

/-! ## Python string / int primitives (version.py helpers) -/

/-- ASCII whitespace recognised by Python str.strip() and by the regex
class backslash-s (space, tab, newline, carriage return, vertical tab,
form feed).  Unicode whitespace is out of scope for the inputs involved. -/
def isPySpace (c : Char) : Bool :=
  c = ' ' || c = '\t' || c = '\n' || c = '\x0d' || c = '\x0b' || c = '\x0c'

/-- Python str.strip(): drop leading and trailing whitespace. -/
def pyStrip (cs : List Char) : List Char :=
  ((cs.dropWhile isPySpace).reverse.dropWhile isPySpace).reverse

/-- Digit run with single underscores allowed between digits, as accepted
by Python int() after the first digit ("1_0" parses to 10, a trailing or
doubled underscore is an error).  Accumulates the value of the digits. -/
def pyDigitsGo : List Char → Nat → Option Nat
  | [], acc => some acc
  | '_' :: c :: rest, acc =>
      if c.isDigit then pyDigitsGo rest (acc * 10 + (c.toNat - 48)) else none
  | ['_'], _ => none
  | c :: rest, acc =>
      if c.isDigit then pyDigitsGo rest (acc * 10 + (c.toNat - 48)) else none

/-- Nonempty digit run (underscore separated), the body of a Python int
literal after the optional sign. -/
def pyDigits : List Char → Option Nat
  | [] => none
  | c :: rest => if c.isDigit then pyDigitsGo rest (c.toNat - 48) else none

/-- Python int(str): strip whitespace, optional sign, digits; any other
shape raises ValueError, modelled as none. -/
def pyInt (cs : List Char) : Option Int :=
  match pyStrip cs with
  | '-' :: rest => (pyDigits rest).map (fun n => -(n : Int))
  | '+' :: rest => (pyDigits rest).map (fun n => (n : Int))
  | rest => (pyDigits rest).map (fun n => (n : Int))

/-- Python str.split(sep) for a single-character separator: splits on every
occurrence, keeping empty parts ("a..b" gives ["a", "", "b"]). -/
def splitOnChar (c : Char) : List Char → List (List Char)
  | [] => [[]]
  | x :: xs =>
    let r := splitOnChar c xs
    if x = c then [] :: r
    else
      match r with
      | [] => [[x]]
      | y :: ys => (x :: y) :: ys

/-! ## version.py: parse_version_tuple, sort_versions -/

/-- version.py parse_version_tuple: tuple(map(int, version.split("."))),
returning None when any component raises ValueError.  The Python tuple of
ints is modelled as a List Int. -/
def parse_version_tuple (version : String) : Option (List Int) :=
  (splitOnChar '.' version.data).mapM pyInt

/-- Python tuple comparison (strict less-than) on int tuples:
lexicographic, a strict prefix is smaller. -/
def tupleLt : List Int → List Int → Bool
  | [], [] => false
  | [], _ :: _ => true
  | _ :: _, [] => false
  | a :: as_, b :: bs =>
      if a < b then true
      else if b < a then false
      else tupleLt as_ bs

/-- Non-strict tuple comparison, defined from the strict one as Python
total orders do. -/
def tupleLe (x y : List Int) : Bool := !(tupleLt y x)

/-- Order on sort keys as used in sort_versions.  In runs of the Python
code that do not raise, every key is a parsed tuple (some _); the none
cases are given an arbitrary total-order completion (none smallest) so the
relation is total everywhere. -/
def sortKeyLe : Option (List Int) → Option (List Int) → Bool
  | none, _ => true
  | some _, none => false
  | some x, some y => tupleLe x y

/-- The ordering used by sorted(versions, key=parse_version_tuple,
reverse=True): a comes before b when a's key is at least b's key (a stable
descending sort by key). -/
def descRel (a b : String) : Prop :=
  sortKeyLe (parse_version_tuple b) (parse_version_tuple a) = true

instance decDescRel : DecidableRel descRel :=
  fun _ _ => instDecidableEqBool _ _

/-- version.py sort_versions: sorted(versions, key=parse_version_tuple,
reverse=True).  CPython computes all keys first and sorts by comparing
keys with the less-than operator; when the list has at least two elements
every element takes part in at least one comparison, and any comparison
involving a None key raises TypeError (None has no ordering, even against
another None).  So a list of length at least 2 containing an unparseable
version raises; otherwise the call returns a stable descending sort by
key, modelled with insertionSort (also stable). -/
def sort_versions (versions : List String) : Except String (List String) :=
  if 2 ≤ versions.length ∧ versions.any (fun v => (parse_version_tuple v).isNone) then
    Except.error "TypeError"
  else
    Except.ok (List.insertionSort descRel versions)

/-! ## Order lemmas for the tuple comparison -/

theorem tupleLt_irrefl (x : List Int) : tupleLt x x = false := by
  induction x with
  | nil => rfl
  | cons a as_ ih => simp [tupleLt, ih]

theorem tupleLt_asymm (x y : List Int) (h : tupleLt x y = true) :
    tupleLt y x = false := by
  induction x generalizing y with
  | nil =>
    cases y with
    | nil => simp [tupleLt] at h
    | cons b bs => rfl
  | cons a as_ ih =>
    cases y with
    | nil => simp [tupleLt] at h
    | cons b bs =>
      by_cases hab : a < b
      · have : ¬ b < a := by omega
        simp [tupleLt, hab, this]
      · by_cases hba : b < a
        · simp [tupleLt, hab, hba] at h
        · simp [tupleLt, hab, hba] at h ⊢
          exact ih bs h

theorem tupleLt_trans (x y z : List Int) (hxy : tupleLt x y = true)
    (hyz : tupleLt y z = true) : tupleLt x z = true := by
  induction x generalizing y z with
  | nil =>
    cases z with
    | nil =>
      cases y with
      | nil => simp [tupleLt] at hxy
      | cons b bs => simp [tupleLt] at hyz
    | cons c cs => rfl
  | cons a as_ ih =>
    cases y with
    | nil => simp [tupleLt] at hxy
    | cons b bs =>
      cases z with
      | nil => simp [tupleLt] at hyz
      | cons c cs =>
        by_cases hab : a < b <;> by_cases hbc : b < c
        · have hac : a < c := by omega
          simp [tupleLt, hac]
        · by_cases hcb : c < b
          · simp [tupleLt, hbc, hcb] at hyz
          · have hbc' : b = c := by omega
            subst hbc'
            simp [tupleLt, hab]
        · by_cases hba : b < a
          · simp [tupleLt, hab, hba] at hxy
          · have hab' : a = b := by omega
            subst hab'
            simp [tupleLt, hbc]
        · by_cases hba : b < a
          · simp [tupleLt, hab, hba] at hxy
          · by_cases hcb : c < b
            · simp [tupleLt, hbc, hcb] at hyz
            · have hab' : a = b := by omega
              have hbc' : b = c := by omega
              subst hab'; subst hbc'
              simp [tupleLt, hab] at hxy hyz ⊢
              exact ih bs cs hxy hyz

theorem tupleLt_connex (x y : List Int) (hxy : tupleLt x y = false)
    (hyx : tupleLt y x = false) : x = y := by
  induction x generalizing y with
  | nil =>
    cases y with
    | nil => rfl
    | cons b bs => simp [tupleLt] at hxy
  | cons a as_ ih =>
    cases y with
    | nil => simp [tupleLt] at hyx
    | cons b bs =>
      by_cases hab : a < b
      · simp [tupleLt, hab] at hxy
      · by_cases hba : b < a
        · simp [tupleLt, hba] at hyx
        · have hab' : a = b := by omega
          subst hab'
          simp [tupleLt, hab] at hxy hyx
          rw [ih bs hxy hyx]

theorem tupleLe_refl (x : List Int) : tupleLe x x = true := by
  simp [tupleLe, tupleLt_irrefl]

theorem tupleLe_total (x y : List Int) :
    tupleLe x y = true ∨ tupleLe y x = true := by
  by_cases h : tupleLt y x = true
  · right
    simp [tupleLe, tupleLt_asymm _ _ h]
  · left
    simp [tupleLe]
    simpa using h

theorem tupleLe_trans (x y z : List Int) (hxy : tupleLe x y = true)
    (hyz : tupleLe y z = true) : tupleLe x z = true := by
  simp [tupleLe] at hxy hyz ⊢
  by_contra hzx
  rw [Bool.not_eq_false] at hzx
  rcases Bool.eq_false_or_eq_true (tupleLt y z) with h2 | h2
  · exact absurd (tupleLt_trans y z x h2 hzx) (by simpa using hxy)
  · have h3 := tupleLt_connex y z h2 hyz
    subst h3
    exact absurd hzx (by simpa using hxy)

theorem sortKeyLe_refl (x : Option (List Int)) : sortKeyLe x x = true := by
  cases x with
  | none => rfl
  | some v => simpa [sortKeyLe] using tupleLe_refl v

theorem sortKeyLe_total (x y : Option (List Int)) :
    sortKeyLe x y = true ∨ sortKeyLe y x = true := by
  cases x with
  | none => left; rfl
  | some v =>
    cases y with
    | none => right; rfl
    | some w => simpa [sortKeyLe] using tupleLe_total v w

theorem sortKeyLe_trans (x y z : Option (List Int)) (hxy : sortKeyLe x y = true)
    (hyz : sortKeyLe y z = true) : sortKeyLe x z = true := by
  cases x with
  | none => rfl
  | some v =>
    cases y with
    | none => simp [sortKeyLe] at hxy
    | some w =>
      cases z with
      | none => simp [sortKeyLe] at hyz
      | some u => exact tupleLe_trans v w u hxy hyz

instance instTotalDescRel : IsTotal String descRel :=
  ⟨fun a b => sortKeyLe_total (parse_version_tuple b) (parse_version_tuple a)⟩

instance instTransDescRel : IsTrans String descRel :=
  ⟨fun _ _ _ hab hbc =>
    sortKeyLe_trans _ _ _ hbc hab⟩

/-! ## Claims about the comparator and the sort -/

/-- Claim C1 (code_bug evidence).  The spec says sort_versions drops
unparseable entries silently and never aborts ranking of the rest.  The
code instead passes parse_version_tuple (which returns None on malformed
input) directly as the key to sorted, so sorting a parseable entry next to
a malformed one compares a tuple with None and raises TypeError: at the
failing input, with "abc" unparseable and "1.2.0" parseable, the call
aborts instead of returning the remaining entry. -/
theorem C1_sort_versions_raises_on_malformed :
    sort_versions ["1.2.0", "abc"] = Except.error "TypeError"
      ∧ parse_version_tuple "abc" = none
      ∧ parse_version_tuple "1.2.0" = some [1, 2, 0] := by
  refine ⟨by rfl, by decide, by decide⟩

/-- Claim C7.  The comparison induced by parse_version_tuple on valid
dotted numeric version strings is a strict total order consistent with
component-wise integer comparison: trichotomy (modulo equality of the
parsed tuples), mutual exclusion, asymmetry and transitivity hold, and in
particular "1.9.0" is below "1.10.0" and "1.99.99" below "2.0.0" -- the
comparison is numeric per component, not a string comparison. -/
theorem C7_version_comparison_strict_total_order :
    (∀ a b ta tb, parse_version_tuple a = some ta → parse_version_tuple b = some tb →
      (tupleLt ta tb = true ∨ ta = tb ∨ tupleLt tb ta = true)
        ∧ (tupleLt ta tb = true → ta ≠ tb ∧ tupleLt tb ta = false))
      ∧ (∀ a b c ta tb tc, parse_version_tuple a = some ta →
          parse_version_tuple b = some tb → parse_version_tuple c = some tc →
          tupleLt ta tb = true → tupleLt tb tc = true → tupleLt ta tc = true)
      ∧ (∃ ta tb, parse_version_tuple "1.9.0" = some ta
          ∧ parse_version_tuple "1.10.0" = some tb ∧ tupleLt ta tb = true)
      ∧ (∃ ta tb, parse_version_tuple "1.99.99" = some ta
          ∧ parse_version_tuple "2.0.0" = some tb ∧ tupleLt ta tb = true) := by
  refine ⟨fun a b ta tb _ _ => ⟨?_, fun hlt => ⟨?_, tupleLt_asymm ta tb hlt⟩⟩,
    fun _ _ _ ta tb tc _ _ _ hab hbc => tupleLt_trans ta tb tc hab hbc,
    ⟨[1, 9, 0], [1, 10, 0], by decide, by decide, by decide⟩,
    ⟨[1, 99, 99], [2, 0, 0], by decide, by decide, by decide⟩⟩
  · rcases Bool.eq_false_or_eq_true (tupleLt ta tb) with h | h
    · exact Or.inl h
    · rcases Bool.eq_false_or_eq_true (tupleLt tb ta) with h2 | h2
      · exact Or.inr (Or.inr h2)
      · exact Or.inr (Or.inl (tupleLt_connex ta tb h h2))
  · intro hEq
    subst hEq
    exact absurd hlt (by simp [tupleLt_irrefl])

/-- Claim C7 witness: the theorem applied at the concrete pair
"1.9.0", "1.10.0". -/
theorem C7_witness :
    tupleLt [1, 9, 0] [1, 10, 0] = true
      ∨ ([1, 9, 0] : List Int) = [1, 10, 0] ∨ tupleLt [1, 10, 0] [1, 9, 0] = true :=
  (C7_version_comparison_strict_total_order.1 "1.9.0" "1.10.0" [1, 9, 0] [1, 10, 0]
    (by decide) (by decide)).1

/-- The head of the stable descending sort is a maximum for the sort key:
shared helper for claims about picking the latest version. -/
theorem insertionSort_desc_head_max (l : List String) (hne : l ≠ []) :
    ∃ best rest, List.insertionSort descRel l = best :: rest ∧ best ∈ l ∧
      ∀ w ∈ l, sortKeyLe (parse_version_tuple w) (parse_version_tuple best) = true := by
  have hperm := List.perm_insertionSort descRel l
  have hsorted := List.sorted_insertionSort descRel l
  cases hs : List.insertionSort descRel l with
  | nil =>
    rw [hs] at hperm
    exact absurd (hperm.symm.eq_nil) hne
  | cons best rest =>
    rw [hs] at hperm hsorted
    rw [List.sorted_cons] at hsorted
    refine ⟨best, rest, rfl, hperm.subset (List.mem_cons_self best rest), ?_⟩
    intro w hw
    have hw2 : w ∈ best :: rest := hperm.symm.subset hw
    rcases List.mem_cons.mp hw2 with h | h
    · subst h
      exact sortKeyLe_refl _
    · exact hsorted.1 w h

/-! ## version.py: platform detection and the remote manifest -/

/-- version.py get_platform: the platform_map dict literal. -/
def platform_map : List (String × String) :=
  [("x86_64", "linux-x64"), ("aarch64", "linux-arm64"), ("arm64", "linux-arm64")]

/-- version.py get_platform, parameterised by the host machine string that
platform.machine() reports: platform_map.get(arch, "linux-x64"). -/
def get_platform (arch : String) : String :=
  (platform_map.lookup arch).getD "linux-x64"

/-- One entry of the manifest's "versions" array: the "version" key if
present, and the "platforms" dict as an association list (Python dict keys
are unique; lookup takes the first match). -/
structure VEntry where
  version : Option String
  platforms : List (String × String)

/-- The fetched/cached manifest JSON object: the "versions" key if
present, plus whether the object carries any other keys (needed to mirror
Python truthiness of the dict: an empty dict is falsy). -/
structure Manifest where
  versionsKey : Option (List VEntry)
  otherKeys : Bool

/-- version_history.get("versions", []). -/
def Manifest.versions (m : Manifest) : List VEntry := m.versionsKey.getD []

/-- Python truthiness of the manifest dict: nonempty. -/
def Manifest.truthy (m : Manifest) : Bool := m.versionsKey.isSome || m.otherKeys

/-- Python truthiness of an optional manifest (None or falsy dict). -/
def optManifestTruthy : Option Manifest → Bool
  | none => false
  | some m => m.truthy

/-- Truthiness of v.get("platforms", {}).get(platform_name): present and a
nonempty string. -/
def urlTruthy : Option String → Bool
  | none => false
  | some s => decide (s ≠ "")

/-- Whether a manifest entry offers a download for the host platform. -/
def entryOffers (arch : String) (v : VEntry) : Bool :=
  urlTruthy (v.platforms.lookup (get_platform arch))

/-- version.py get_platform_versions: the list comprehension
[v["version"] for v in versions if v.get("platforms", {}).get(platform_name)]
guarded by try/except KeyError.  The comprehension indexes v["version"]
only for entries passing the filter; a single entry passing the filter
without a "version" key raises KeyError, which the except clause converts
into an empty result. -/
def get_platform_versions (m : Manifest) (arch : String) : List String :=
  let matching := m.versions.filter (entryOffers arch)
  if matching.all (fun v => v.version.isSome) then
    matching.filterMap (fun v => v.version)
  else []

/-- version.py get_latest_remote_version, parameterised by the manifest
that get_version_history() produced (none models both a missing history
and, via truthiness, a falsy one) and by the host machine string.  Returns
sort_versions(platform_versions)[0]; the TypeError that sort_versions can
raise propagates. -/
def get_latest_remote_version (mh : Option Manifest) (arch : String) :
    Except String (Option String) :=
  if ¬ optManifestTruthy mh then Except.ok none
  else
    match mh with
    | none => Except.ok none
    | some m =>
      let platform_versions := get_platform_versions m arch
      if platform_versions.isEmpty then Except.ok none
      else (sort_versions platform_versions).map List.head?

/-- version.py get_download_url, parameterised the same way: first entry
whose "version" equals the requested one and whose platforms dict holds a
truthy URL for the host platform.  An entry with the right version but no
(or falsy) URL is skipped, not returned. -/
def get_download_url (mh : Option Manifest) (arch : String) (version : String) :
    Option String :=
  if ¬ optManifestTruthy mh then none
  else
    match mh with
    | none => none
    | some m =>
      m.versions.findSome? (fun v =>
        if v.version = some version then
          match v.platforms.lookup (get_platform arch) with
          | some url => if url = "" then none else some url
          | none => none
        else none)

/-! ## version.py: VersionHistoryCache and get_version_history -/

/-- Modelled from the spec: CACHE_MAX_AGE lives in cursor_updater/config.py,
which is not among the available sources; the spec fixes the freshness
window at 15 minutes, i.e. 900 seconds. -/
def CACHE_MAX_AGE : Int := 900

/-- The environment a single get_version_history() call observes: the
current clock, the cache file if it exists (its mtime and its parsed
content, none when reading or JSON decoding fails), the outcome the
network fetch would have (none models URLError/HTTPError/timeout or a
JSON decode failure in fetch_version_history), and whether a write of the
cache file would raise OSError (disk or permission failure). -/
structure CacheEnv where
  now : Int
  cacheFile : Option (Int × Option Manifest)
  fetchResult : Option Manifest
  saveFails : Bool

/-- VersionHistoryCache.is_cache_valid: the file exists and its age is
below CACHE_MAX_AGE. -/
def is_cache_valid (e : CacheEnv) : Bool :=
  match e.cacheFile with
  | none => false
  | some (mtime, _) => decide (e.now - mtime < CACHE_MAX_AGE)

/-- VersionHistoryCache.load: parsed cache content, only when the cache is
valid; read or decode failure gives None. -/
def cacheLoad (e : CacheEnv) : Option Manifest :=
  if is_cache_valid e then
    match e.cacheFile with
    | none => none
    | some (_, content) => content
  else none

/-- VersionHistoryCache.load_stale: parsed cache content regardless of
age. -/
def cacheLoadStale (e : CacheEnv) : Option Manifest :=
  match e.cacheFile with
  | none => none
  | some (_, content) => content

/-- VersionHistoryCache.save: try to overwrite the cache file with the
fetched data, the file's mtime becoming the current time; an OSError
during the write is swallowed (try/except pass), leaving the cache file
as it was. -/
def cacheSave (e : CacheEnv) (data : Manifest) : CacheEnv :=
  if e.saveFails then e else { e with cacheFile := some (e.now, some data) }

/-- version.py get_version_history as a state transformer.  Returns the
manifest result, whether a network fetch was issued, and the environment
afterwards.  Mirrors: cached = load(); if cached: return cached;
data = fetch(); if data: save(data); return data; return load_stale(). -/
def get_version_history (e : CacheEnv) : Option Manifest × Bool × CacheEnv :=
  let cached := cacheLoad e
  if optManifestTruthy cached then (cached, false, e)
  else
    match e.fetchResult with
    | some data =>
      if data.truthy then (some data, true, cacheSave e data)
      else (cacheLoadStale e, true, e)
    | none => (cacheLoadStale e, true, e)

/-! ## Claims C10, C4, C8 -/

/-- Claim C10.  For every host machine string outside x86_64, aarch64 and
arm64, get_platform falls back to "linux-x64" rather than reporting the
architecture as unknown, so manifest filtering and download-URL lookup on
such hosts silently use the x64 platform identifier. -/
theorem C10_unknown_arch_defaults_to_x64 :
    ∀ arch : String, arch ∉ (["x86_64", "aarch64", "arm64"] : List String) →
      get_platform arch = "linux-x64"
        ∧ (∀ m : Manifest, get_platform_versions m arch = get_platform_versions m "x86_64")
        ∧ (∀ (mh : Option Manifest) (v : String),
            get_download_url mh arch v = get_download_url mh "x86_64" v) := by
  intro arch h
  have h1 : arch ≠ "x86_64" := by intro hx; exact h (by simp [hx])
  have h2 : arch ≠ "aarch64" := by intro hx; exact h (by simp [hx])
  have h3 : arch ≠ "arm64" := by intro hx; exact h (by simp [hx])
  have b1 : (arch == "x86_64") = false := by simpa using h1
  have b2 : (arch == "aarch64") = false := by simpa using h2
  have b3 : (arch == "arm64") = false := by simpa using h3
  have hp : get_platform arch = "linux-x64" := by
    simp [get_platform, platform_map, List.lookup, b1, b2, b3]
  have hx64 : get_platform "x86_64" = "linux-x64" := by rfl
  have he : entryOffers arch = entryOffers "x86_64" := by
    funext v
    rw [entryOffers, entryOffers, hp, hx64]
  refine ⟨hp, fun m => ?_, fun mh v => ?_⟩
  · rw [get_platform_versions, get_platform_versions, he]
  · simp only [get_download_url, hp, hx64]

/-- Claim C10 witness: the theorem at the concrete machine string
"riscv64". -/
theorem C10_witness : get_platform "riscv64" = "linux-x64" :=
  (C10_unknown_arch_defaults_to_x64 "riscv64" (by decide)).1

/-- Claim C4 (spec-modelled CACHE_MAX_AGE).  get_version_history follows
the three-tier policy: a cache entry younger than the freshness window is
returned with no network call; otherwise a live fetch is attempted, whose
successful result is returned and, provided the cache write does not
raise (VersionHistoryCache.save swallows OSError), persisted by
overwriting the cache file timestamped now -- when the write does fail,
the result is still returned and the cache file is left as it was; and on
fetch failure the stale cache entry is returned if its content is
readable at all, however old. -/
theorem C4_get_version_history_three_tier :
    (∀ (e : CacheEnv) (mtime : Int) (m : Manifest),
      e.cacheFile = some (mtime, some m) → e.now - mtime < CACHE_MAX_AGE →
      m.truthy = true → get_version_history e = (some m, false, e))
      ∧ (∀ (e : CacheEnv) (d : Manifest),
          optManifestTruthy (cacheLoad e) = false → e.fetchResult = some d →
          d.truthy = true → e.saveFails = false →
          get_version_history e
            = (some d, true, { e with cacheFile := some (e.now, some d) }))
      ∧ (∀ (e : CacheEnv) (d : Manifest),
          optManifestTruthy (cacheLoad e) = false → e.fetchResult = some d →
          d.truthy = true → e.saveFails = true →
          get_version_history e = (some d, true, e))
      ∧ (∀ (e : CacheEnv) (mtime : Int) (m : Manifest),
          e.fetchResult = none → e.cacheFile = some (mtime, some m) →
          (get_version_history e).1 = some m) := by
  refine ⟨?_, ?_, ?_, ?_⟩
  · intro e mtime m hfile hage htruthy
    have hvalid : is_cache_valid e = true := by
      simp [is_cache_valid, hfile, hage]
    have hload : cacheLoad e = some m := by
      simp [cacheLoad, hvalid, hfile]
    simp [get_version_history, hload, optManifestTruthy, htruthy]
  · intro e d hstale hfetch htruthy hsave
    simp [get_version_history, hstale, hfetch, htruthy, cacheSave, hsave]
  · intro e d hstale hfetch htruthy hsave
    simp [get_version_history, hstale, hfetch, htruthy, cacheSave, hsave]
  · intro e mtime m hfetch hfile
    have hstale : cacheLoadStale e = some m := by
      simp [cacheLoadStale, hfile]
    have hload : cacheLoad e = if is_cache_valid e then some m else none := by
      simp [cacheLoad, hfile]
    rcases hv : is_cache_valid e with _ | _
    · have h0 : cacheLoad e = none := by rw [hload, hv]; rfl
      simp [get_version_history, h0, optManifestTruthy, hfetch, hstale]
    · have h0 : cacheLoad e = some m := by rw [hload, hv]; rfl
      by_cases ht : m.truthy = true
      · simp [get_version_history, h0, optManifestTruthy, ht]
      · simp [get_version_history, h0, optManifestTruthy, ht, hfetch, hstale]

/-- Claim C4 witness: a cache file written 2000 seconds ago (outside the
900 second window) together with a successful fetch and a working disk:
the fetched manifest is returned, a network call is made, and the cache
file is overwritten with the fetched data timestamped now. -/
theorem C4_witness :
    get_version_history
        { now := 5000, cacheFile := some (3000, some { versionsKey := some [], otherKeys := false }),
          fetchResult := some { versionsKey := some [], otherKeys := true }, saveFails := false }
      = (some { versionsKey := some [], otherKeys := true }, true,
          { now := 5000,
            cacheFile := some (5000, some { versionsKey := some [], otherKeys := true }),
            fetchResult := some { versionsKey := some [], otherKeys := true }, saveFails := false }) :=
  C4_get_version_history_three_tier.2.1 _ { versionsKey := some [], otherKeys := true }
    (by decide) rfl rfl rfl

/-- Claim C8.  get_latest_remote_version returns absent when no manifest
is obtainable or when zero entries offer a download URL for the host's
platform; otherwise (on a manifest whose matching entries are well formed:
every entry offering a URL carries a version field, and the collected
versions parse) it returns a maximum of the collected versions for the
component-wise numeric comparator; and the collected versions are exactly
the version fields of the entries offering a URL for the host platform. -/
theorem C8_latest_remote_is_max_of_matching :
    (∀ arch, get_latest_remote_version none arch = Except.ok none)
      ∧ (∀ (m : Manifest) arch, get_platform_versions m arch = [] →
          get_latest_remote_version (some m) arch = Except.ok none)
      ∧ (∀ (m : Manifest) arch, get_platform_versions m arch ≠ [] →
          (∀ v ∈ get_platform_versions m arch, (parse_version_tuple v).isSome = true) →
          ∃ best, get_latest_remote_version (some m) arch = Except.ok (some best)
            ∧ best ∈ get_platform_versions m arch
            ∧ ∀ w ∈ get_platform_versions m arch,
                sortKeyLe (parse_version_tuple w) (parse_version_tuple best) = true)
      ∧ (∀ (m : Manifest) arch (v : String),
          (∀ en ∈ m.versions, entryOffers arch en = true → en.version.isSome = true) →
          (v ∈ get_platform_versions m arch ↔
            ∃ en ∈ m.versions, en.version = some v ∧ entryOffers arch en = true)) := by
  refine ⟨fun arch => rfl, ?_, ?_, ?_⟩
  · intro m arch hpv
    by_cases ht : m.truthy = true
    · simp [get_latest_remote_version, optManifestTruthy, ht, hpv]
    · simp [get_latest_remote_version, optManifestTruthy, ht]
  · intro m arch hne hparse
    have ht : m.truthy = true := by
      rcases hm : m.versionsKey with _ | vs
      · exact absurd (by simp [get_platform_versions, Manifest.versions, hm]) hne
      · simp [Manifest.truthy, hm]
    have hempty : (get_platform_versions m arch).isEmpty = false := by
      rcases hl : get_platform_versions m arch with _ | ⟨x, xs⟩
      · exact absurd hl hne
      · rfl
    have hnoerr :
        ¬ (2 ≤ (get_platform_versions m arch).length ∧
          (get_platform_versions m arch).any (fun v => (parse_version_tuple v).isNone)) := by
      rintro ⟨-, hany⟩
      rcases List.any_eq_true.mp hany with ⟨v, hv, hnone⟩
      have h2 := hparse v hv
      rw [Option.isNone_iff_eq_none.mp hnone] at h2
      simp at h2
    obtain ⟨best, rest, hsort, hmem, hmax⟩ :=
      insertionSort_desc_head_max (get_platform_versions m arch) hne
    refine ⟨best, ?_, hmem, hmax⟩
    simp only [get_latest_remote_version, optManifestTruthy, ht, sort_versions]
    rw [if_neg (by simp), if_neg (by simpa using hempty), if_neg hnoerr]
    simp [hsort, Except.map]
  · intro m arch v hwf
    have hall : (m.versions.filter (entryOffers arch)).all (fun en => en.version.isSome) = true := by
      rw [List.all_eq_true]
      intro en hen
      rcases List.mem_filter.mp hen with ⟨hmem, hoff⟩
      exact hwf en hmem hoff
    simp only [get_platform_versions, hall, if_true]
    constructor
    · intro hv
      rcases List.mem_filterMap.mp hv with ⟨en, hen, hver⟩
      rcases List.mem_filter.mp hen with ⟨hmem, hoff⟩
      exact ⟨en, hmem, hver, hoff⟩
    · rintro ⟨en, hmem, hver, hoff⟩
      exact List.mem_filterMap.mpr ⟨en, List.mem_filter.mpr ⟨hmem, hoff⟩, hver⟩

/-- A concrete manifest used by the claim C8 witness: two x64 entries and
one arm64-only entry. -/
def manifestEx1 : Manifest :=
  { versionsKey := some
      [ { version := some "1.9.0", platforms := [("linux-x64", "u1")] },
        { version := some "1.10.0", platforms := [("linux-x64", "u2")] },
        { version := some "2.0.0", platforms := [("linux-arm64", "u3")] } ],
    otherKeys := false }

/-- Claim C8 witness: on an x86_64 host the maximum of the two matching
entries of manifestEx1 is returned (numeric, not lexicographic,
comparison). -/
theorem C8_witness :
    ∃ best, get_latest_remote_version (some manifestEx1) "x86_64" = Except.ok (some best)
      ∧ best ∈ get_platform_versions manifestEx1 "x86_64"
      ∧ ∀ w ∈ get_platform_versions manifestEx1 "x86_64",
          sortKeyLe (parse_version_tuple w) (parse_version_tuple best) = true :=
  C8_latest_remote_is_max_of_matching.2.2.1 manifestEx1 "x86_64" (by decide) (by decide)

/-! ## download.py: paths, symlink transaction, desktop rewrite -/

/-- Modelled from the spec: DOWNLOADS_DIR lives in config.py (not among
the sources); it is the downloads directory holding per-version
artifacts.  Its exact value is immaterial to every claim. -/
def DOWNLOADS_DIR : String := "~/Downloads/cursor"

/-- Modelled from the spec: CURSOR_APPIMAGE lives in config.py (not among
the sources); per the source docstrings it is the canonical managed path
~/.local/bin/cursor.AppImage.  Its exact value is immaterial to the
claims (it contains no whitespace). -/
def CURSOR_APPIMAGE : String := "~/.local/bin/cursor.AppImage"

/-- download.py get_appimage_path: DOWNLOADS_DIR / f-string
cursor-(version).AppImage. -/
def get_appimage_path (version : String) : String :=
  DOWNLOADS_DIR ++ "/cursor-" ++ version ++ ".AppImage"

/-- What occupies a filesystem path: nothing, a symlink to a target, or a
regular file (tagged with an identity so a backup rename is visible). -/
inductive FileState
  | absent
  | symlinkTo (target : String)
  | regular (id : Nat)
deriving DecidableEq

/-- A path create_symlink may operate on: its current content, the
content of the sibling .backup path, and whether symlink_to at this path
would raise OSError (environment nondeterminism, e.g. permissions). -/
structure PathSlot where
  state : FileState
  backup : Option FileState
  symlinkFails : Bool
deriving DecidableEq

/-- download.py create_symlink: unlink an existing symlink; rename an
existing regular file aside to the .backup path (overwriting any previous
backup); then symlink_to the target, returning False on OSError. -/
def create_symlink (target : String) (s : PathSlot) : Bool × PathSlot :=
  let s1 :=
    match s.state with
    | FileState.symlinkTo _ => { s with state := FileState.absent }
    | FileState.regular n =>
        { s with state := FileState.absent, backup := some (FileState.regular n) }
    | FileState.absent => s
  if s1.symlinkFails then (false, s1)
  else (true, { s1 with state := FileState.symlinkTo target })

/-- Python str.split() with no separator: split on runs of whitespace,
dropping empty parts.  The accumulator holds the current token
reversed. -/
def splitWsAux : List Char → List Char → List (List Char)
  | [], acc => if acc.isEmpty then [] else [acc.reverse]
  | c :: rest, acc =>
      if isPySpace c then
        if acc.isEmpty then splitWsAux rest []
        else acc.reverse :: splitWsAux rest []
      else splitWsAux rest (c :: acc)

/-- Python str.split() with no separator. -/
def pySplitWs (cs : List Char) : List (List Char) := splitWsAux cs []

/-- Python " ".join on tokens. -/
def joinSpace : List (List Char) → List Char
  | [] => []
  | [t] => t
  | t :: ts => t ++ ' ' :: joinSpace ts

/-- download.py update_desktop_file, per-line transform of an Exec= line:
parts = line.strip().split(); args = " " + " ".join(parts[1:]) when there
is more than one part, else ""; the line becomes
Exec=(CURSOR_APPIMAGE)(args) plus a newline. -/
def rewriteExecLine (line : String) : String :=
  let parts := pySplitWs (pyStrip line.data)
  let args : List Char :=
    match parts with
    | [] => []
    | [_] => []
    | _ :: rest => ' ' :: joinSpace rest
  String.mk (("Exec=" ++ CURSOR_APPIMAGE).data ++ args ++ ['\n'])

/-- download.py update_desktop_file, loop over readlines() output: lines
starting with Exec= are rewritten, the rest pass through; the flag records
whether any line was rewritten. -/
def update_desktop_lines : List String → List String × Bool
  | [] => ([], false)
  | line :: rest =>
    let r := update_desktop_lines rest
    if "Exec=".data.isPrefixOf line.data then (rewriteExecLine line :: r.1, true)
    else (line :: r.1, r.2)

/-- The running Cursor process as the activation step 3 sees it: the facts
the source checks (does the resolved path differ from the canonical one,
does the path exist, is its directory writable) plus the state of the path
it runs from. -/
structure RunningProc where
  resolvesToCanonical : Bool
  pathExists : Bool
  dirWritable : Bool
  slot : PathSlot
deriving DecidableEq

/-- The filesystem state the activation transaction and the orchestrator
read and mutate: artifact paths present in the downloads directory, the
canonical CURSOR_APPIMAGE path, the desktop launcher file's lines (none
when the file is missing) with its IO-failure switch (OSError on read or
write), and the running process if any. -/
structure World where
  files : List String
  canonical : PathSlot
  desktop : Option (List String)
  desktopIOFails : Bool
  running : Option RunningProc
deriving DecidableEq

/-- download.py update_desktop_file as a state transformer: False when the
desktop file is missing or OSError strikes; otherwise rewrite the lines
and write the file back only when an Exec= line was found. -/
def update_desktop_file (w : World) : Bool × World :=
  match w.desktop with
  | none => (false, w)
  | some lines =>
    if w.desktopIOFails then (false, w)
    else
      let r := update_desktop_lines lines
      if r.2 then (true, { w with desktop := some r.1 }) else (false, w)

/-- download.py select_version step 3: when a process runs from a path
that does not resolve to the canonical one, and that path exists and its
directory is writable, best-effort create_symlink there (result and
OSError both swallowed). -/
def repoint_running (appimage_path : String) (w : World) : World :=
  match w.running with
  | none => w
  | some r =>
    if ¬ r.resolvesToCanonical then
      if r.pathExists && r.dirWritable then
        let c := create_symlink appimage_path r.slot
        { w with running := some { r with slot := c.2 } }
      else w
    else w

/-- download.py select_version: fail with no mutation when the artifact is
absent; fatally fail if the canonical symlink swap fails; then best-effort
desktop rewrite (result ignored) and best-effort running-path repoint;
report success. -/
def select_version (version : String) (w : World) : Bool × World :=
  let appimage_path := get_appimage_path version
  if ¬ w.files.contains appimage_path then (false, w)
  else
    let c := create_symlink appimage_path w.canonical
    if ¬ c.1 then (false, { w with canonical := c.2 })
    else
      let w1 := { w with canonical := c.2 }
      let w2 := (update_desktop_file w1).2
      let w3 := repoint_running appimage_path w2
      (true, w3)

/-! ## download.py download_version and ui.py update_cursor -/

/-- The environment download_version observes: whether get_download_url
yields a URL for the version, and whether the transfer (download_file)
succeeds.  On transfer failure download_file deletes the partial file, so
the downloads directory is unchanged. -/
structure DownloadEnv where
  urlAvailable : Bool
  networkOk : Bool
deriving DecidableEq

/-- download.py download_version: no URL gives False; an already present
artifact short-circuits to True; otherwise fetch, adding the artifact on
success and leaving the directory unchanged (partial file deleted) on
failure. -/
def download_version (version : String) (env : DownloadEnv) (w : World) : Bool × World :=
  if ¬ env.urlAvailable then (false, w)
  else
    let filepath := get_appimage_path version
    if w.files.contains filepath then (true, w)
    else if env.networkOk then (true, { w with files := filepath :: w.files })
    else (false, w)

/-- Observable calls update_cursor makes to its collaborators. -/
inductive UpdateEvent
  | downloadCall (version : String)
  | activateCall (version : String)
deriving DecidableEq

/-- ui.py update_cursor, parameterised by the results of
get_latest_remote_version and get_latest_local_version: fail when no
remote version resolves; download when remote and latest-local differ,
aborting on failure; finally run select_version.  The event trace records
the collaborator calls made. -/
def update_cursor (latest_remote latest_local : Option String) (env : DownloadEnv)
    (w : World) : Bool × World × List UpdateEvent :=
  match latest_remote with
  | none => (false, w, [])
  | some v =>
    if some v ≠ latest_local then
      let d := download_version v env w
      if ¬ d.1 then (false, d.2, [UpdateEvent.downloadCall v])
      else
        let s := select_version v d.2
        (s.1, s.2, [UpdateEvent.downloadCall v, UpdateEvent.activateCall v])
    else
      let s := select_version v w
      (s.1, s.2, [UpdateEvent.activateCall v])

/-! ## Frame lemmas for the activation transaction -/

theorem update_desktop_file_frame (w : World) :
    ((update_desktop_file w).2).canonical = w.canonical
      ∧ ((update_desktop_file w).2).files = w.files := by
  rcases w with ⟨files, canonical, desktop, dIO, running⟩
  rcases desktop with _ | lines
  · exact ⟨rfl, rfl⟩
  · by_cases hio : dIO = true
    · subst hio
      exact ⟨rfl, rfl⟩
    · have hio2 : dIO = false := by simpa using hio
      subst hio2
      rcases hupd : (update_desktop_lines lines).2 with _ | _ <;>
        simp [update_desktop_file, hupd]

theorem repoint_running_frame (p : String) (w : World) :
    (repoint_running p w).canonical = w.canonical
      ∧ (repoint_running p w).files = w.files
      ∧ (repoint_running p w).desktop = w.desktop := by
  rcases w with ⟨files, canonical, desktop, dIO, running⟩
  rcases running with _ | r
  · exact ⟨rfl, rfl, rfl⟩
  · by_cases h1 : r.resolvesToCanonical = true <;>
      by_cases h2 : (r.pathExists && r.dirWritable) = true <;>
        simp [repoint_running, h1, h2]

/-- Shared helper: activating a version whose artifact path is not in the
downloads directory fails and changes nothing. -/
theorem select_version_not_found (version : String) (w : World)
    (h : w.files.contains (get_appimage_path version) = false) :
    select_version version w = (false, w) := by
  have hm : get_appimage_path version ∉ w.files := by simpa using h
  simp [select_version, hm]

/-- Shared helper: a successful select_version presupposes the artifact,
repoints the canonical path to it, and leaves the downloads directory
unchanged. -/
theorem select_version_success (version : String) (w : World)
    (h : (select_version version w).1 = true) :
    w.files.contains (get_appimage_path version) = true
      ∧ (select_version version w).2.canonical.state
          = FileState.symlinkTo (get_appimage_path version)
      ∧ (select_version version w).2.files = w.files := by
  by_cases hc : w.files.contains (get_appimage_path version) = true
  · have hm : get_appimage_path version ∈ w.files := by simpa using hc
    by_cases hf : w.canonical.symlinkFails = true
    · exfalso
      have hres : (create_symlink (get_appimage_path version) w.canonical).1 = false := by
        rcases hs : w.canonical.state with _ | t | n <;> simp [create_symlink, hs, hf]
      simp only [select_version] at h
      rw [if_neg (by simp [hm]), if_pos (by rw [hres]; simp)] at h
      simp at h
    · have hf2 : w.canonical.symlinkFails = false := by simpa using hf
      have hres1 : (create_symlink (get_appimage_path version) w.canonical).1 = true := by
        rcases hs : w.canonical.state with _ | t | n <;> simp [create_symlink, hs, hf2]
      have hres2 : (create_symlink (get_appimage_path version) w.canonical).2.state
          = FileState.symlinkTo (get_appimage_path version) := by
        rcases hs : w.canonical.state with _ | t | n <;> simp [create_symlink, hs, hf2]
      have hsel : select_version version w
          = (true, repoint_running (get_appimage_path version)
              (update_desktop_file
                { w with canonical := (create_symlink (get_appimage_path version) w.canonical).2 }).2) := by
        simp only [select_version]
        rw [if_neg (by simp [hm]), if_neg (by rw [hres1]; simp)]
      refine ⟨hc, ?_, ?_⟩
      · rw [hsel]
        dsimp only
        rw [(repoint_running_frame _ _).1, (update_desktop_file_frame _).1]
        exact hres2
      · rw [hsel]
        dsimp only
        rw [(repoint_running_frame _ _).2.1, (update_desktop_file_frame _).2]
  · have hc2 : w.files.contains (get_appimage_path version) = false := by simpa using hc
    rw [select_version_not_found version w hc2] at h
    simp at h

/-- Shared helper: select_version succeeds exactly when the artifact is
present and the canonical symlink swap does not fail. -/
theorem select_version_result (version : String) (w : World)
    (h : w.files.contains (get_appimage_path version) = true) :
    (select_version version w).1 = (!w.canonical.symlinkFails) := by
  have hm : get_appimage_path version ∈ w.files := by simpa using h
  by_cases hf : w.canonical.symlinkFails = true
  · have hres : (create_symlink (get_appimage_path version) w.canonical).1 = false := by
      rcases hs : w.canonical.state with _ | t | n <;> simp [create_symlink, hs, hf]
    simp only [select_version]
    rw [if_neg (by simp [hm]), if_pos (by rw [hres]; simp), hf]
    rfl
  · have hf2 : w.canonical.symlinkFails = false := by simpa using hf
    have hres : (create_symlink (get_appimage_path version) w.canonical).1 = true := by
      rcases hs : w.canonical.state with _ | t | n <;> simp [create_symlink, hs, hf2]
    simp only [select_version]
    rw [if_neg (by simp [hm]), if_neg (by rw [hres]; simp), hf2]
    rfl

/-! ## Claims C5, C6, C3 -/

/-- Claim C5.  Activating a version whose artifact does not exist in the
downloads directory returns the not-found failure and performs no
mutation: the returned world is the input world, so the canonical symlink
and its target, the backup, the desktop launcher file and the running
process path are all unchanged. -/
theorem C5_activation_not_found_no_mutation :
    ∀ (version : String) (w : World),
      w.files.contains (get_appimage_path version) = false →
      select_version version w = (false, w) :=
  fun version w h => select_version_not_found version w h

/-- Claim C5 witness: the empty downloads directory with an existing
symlink, a desktop file and a running process; activation of 1.2.3 fails
and changes nothing. -/
theorem C5_witness :
    select_version "1.2.3"
        { files := ["other"],
          canonical := { state := FileState.symlinkTo "old", backup := none, symlinkFails := false },
          desktop := some ["Exec=/old/path\n"], desktopIOFails := false,
          running := some { resolvesToCanonical := false, pathExists := true,
                            dirWritable := true,
                            slot := { state := FileState.regular 7, backup := none,
                                      symlinkFails := false } } }
      = (false,
          { files := ["other"],
            canonical := { state := FileState.symlinkTo "old", backup := none, symlinkFails := false },
            desktop := some ["Exec=/old/path\n"], desktopIOFails := false,
            running := some { resolvesToCanonical := false, pathExists := true,
                              dirWritable := true,
                              slot := { state := FileState.regular 7, backup := none,
                                        symlinkFails := false } } }) :=
  C5_activation_not_found_no_mutation "1.2.3" _ (by decide)

/-- Claim C6.  With the artifact present, success of the step-1 canonical
symlink swap is necessary and sufficient for select_version to report
success, and on success the canonical path ends up a symlink resolving to
the new artifact.  The statement quantifies over every world, in
particular those where the desktop rewrite fails (desktopIOFails) or the
running-process repoint fails (its slot's symlinkFails), so failure of
steps 2 and 3 never flips the reported result. -/
theorem C6_symlink_swap_necessary_and_sufficient :
    ∀ (version : String) (w : World),
      w.files.contains (get_appimage_path version) = true →
      ((select_version version w).1 = true ↔ w.canonical.symlinkFails = false)
        ∧ (w.canonical.symlinkFails = false →
            (select_version version w).2.canonical.state
              = FileState.symlinkTo (get_appimage_path version)) := by
  intro version w h
  constructor
  · rw [select_version_result version w h]
    rcases hf : w.canonical.symlinkFails with _ | _ <;> simp
  · intro hf
    have hres : (select_version version w).1 = true := by
      rw [select_version_result version w h, hf]
      rfl
    exact (select_version_success version w hres).2.1

/-- Claim C6 witness: artifact present, desktop rewrite forced to fail via
its IO switch; activation still succeeds and the symlink points at the new
artifact. -/
theorem C6_witness :
    ((select_version "1.2.3"
        { files := [get_appimage_path "1.2.3"],
          canonical := { state := FileState.regular 3, backup := none, symlinkFails := false },
          desktop := some ["Exec=/old/path --no-sandbox\n"], desktopIOFails := true,
          running := none }).1 = true)
      ∧ (select_version "1.2.3"
          { files := [get_appimage_path "1.2.3"],
            canonical := { state := FileState.regular 3, backup := none, symlinkFails := false },
            desktop := some ["Exec=/old/path --no-sandbox\n"], desktopIOFails := true,
            running := none }).2.canonical.state
        = FileState.symlinkTo (get_appimage_path "1.2.3") := by
  have h := C6_symlink_swap_necessary_and_sufficient "1.2.3"
    { files := [get_appimage_path "1.2.3"],
      canonical := { state := FileState.regular 3, backup := none, symlinkFails := false },
      desktop := some ["Exec=/old/path --no-sandbox\n"], desktopIOFails := true,
      running := none } (by rw [List.contains_cons]; simp)
  exact ⟨h.1.mpr rfl, h.2 rfl⟩

/-- The world of the claim C3 counterexample: no artifact on disk, nothing
else special. -/
def worldEx0 : World :=
  { files := [],
    canonical := { state := FileState.absent, backup := none, symlinkFails := false },
    desktop := none, desktopIOFails := false, running := none }

/-- Claim C3 counterexample.  The claim says update() only ever attempts
activation when the target version's artifact is confirmed present on
disk.  But when latestRemote equals latestLocal (which can hold with the
artifact outside the downloads directory, e.g. a version discovered at the
installation slot), update_cursor skips the download and invokes the
activation transaction directly: here it calls select_version for 1.2.3
(the activateCall event) although no artifact for 1.2.3 is present. -/
theorem C3_counterexample :
    (update_cursor (some "1.2.3") (some "1.2.3") { urlAvailable := true, networkOk := true }
        worldEx0).2.2 = [UpdateEvent.activateCall "1.2.3"]
      ∧ worldEx0.files.contains (get_appimage_path "1.2.3") = false
      ∧ (update_cursor (some "1.2.3") (some "1.2.3") { urlAvailable := true, networkOk := true }
          worldEx0).1 = false := by
  refine ⟨by rfl, by rfl, by rfl⟩

/-- Claim C3 as amended.  update_cursor fails without downloading or
activating when no remote version resolves; a failed download aborts the
run with no activation call and no world change; and whenever the run
reports success the target artifact is present on disk and the canonical
path has been repointed to it -- the activation transaction's own
precondition check means its mutating steps only execute with the artifact
present, although the transaction itself may still be invoked (and fail
with not-found) when latestRemote equals latestLocal with no artifact in
the downloads directory. -/
theorem C3_update_orchestration :
    (∀ (latest_local : Option String) (env : DownloadEnv) (w : World),
      update_cursor none latest_local env w = (false, w, []))
      ∧ (∀ (v : String) (latest_local : Option String) (env : DownloadEnv) (w : World),
          some v ≠ latest_local → (download_version v env w).1 = false →
          update_cursor (some v) latest_local env w = (false, w, [UpdateEvent.downloadCall v])
            ∧ ∀ u, UpdateEvent.activateCall u
                ∉ (update_cursor (some v) latest_local env w).2.2)
      ∧ (∀ (v : String) (latest_local : Option String) (env : DownloadEnv) (w : World),
          (update_cursor (some v) latest_local env w).1 = true →
          (update_cursor (some v) latest_local env w).2.1.files.contains
              (get_appimage_path v) = true
            ∧ (update_cursor (some v) latest_local env w).2.1.canonical.state
                = FileState.symlinkTo (get_appimage_path v)) := by
  refine ⟨fun _ _ _ => rfl, ?_, ?_⟩
  · intro v latest_local env w hne hdl
    have hunch : (download_version v env w).2 = w := by
      rcases henv : env.urlAvailable with _ | _
      · simp [download_version, henv]
      · by_cases hcont : w.files.contains (get_appimage_path v) = true
        · rw [download_version] at hdl
          rw [if_neg (by simp [henv])] at hdl
          simp only at hdl
          rw [if_pos hcont] at hdl
          simp at hdl
        · have hmem : get_appimage_path v ∉ w.files := by simpa using hcont
          rcases hnet : env.networkOk with _ | _
          · simp [download_version, henv, hmem, hnet]
          · rw [download_version] at hdl
            rw [if_neg (by simp [henv])] at hdl
            simp only at hdl
            rw [if_neg (by simp [hmem]), if_pos (by simp [hnet])] at hdl
            simp at hdl
    have hupd : update_cursor (some v) latest_local env w
        = (false, (download_version v env w).2, [UpdateEvent.downloadCall v]) := by
      simp only [update_cursor]
      rw [if_pos hne, if_pos (by rw [hdl]; simp)]
    rw [hupd, hunch]
    exact ⟨rfl, by simp⟩
  · intro v latest_local env w hok
    by_cases hne : some v ≠ latest_local
    · by_cases hdl : (download_version v env w).1 = true
      · have hupd : update_cursor (some v) latest_local env w
            = ((select_version v (download_version v env w).2).1,
               (select_version v (download_version v env w).2).2,
               [UpdateEvent.downloadCall v, UpdateEvent.activateCall v]) := by
          simp only [update_cursor]
          rw [if_pos hne, if_neg (by rw [hdl]; simp)]
        rw [hupd] at hok ⊢
        have hsucc := select_version_success v (download_version v env w).2 hok
        exact ⟨by rw [hsucc.2.2]; exact (select_version_success v _ hok).1, hsucc.2.1⟩
      · have hdl2 : (download_version v env w).1 = false := by simpa using hdl
        have hupd : update_cursor (some v) latest_local env w
            = (false, (download_version v env w).2, [UpdateEvent.downloadCall v]) := by
          simp only [update_cursor]
          rw [if_pos hne, if_pos (by rw [hdl2]; simp)]
        rw [hupd] at hok
        simp at hok
    · have heq : some v = latest_local := by simpa using hne
      have hupd : update_cursor (some v) latest_local env w
          = ((select_version v w).1, (select_version v w).2, [UpdateEvent.activateCall v]) := by
        simp only [update_cursor]
        rw [if_neg (by simp [heq])]
      rw [hupd] at hok ⊢
      have hsucc := select_version_success v w hok
      exact ⟨by rw [hsucc.2.2]; exact hsucc.1, hsucc.2.1⟩

/-- Claim C3 (amended) witness: a failed download (no network, artifact
absent) aborts the run with no activation call. -/
theorem C3_witness :
    update_cursor (some "1.2.3") none { urlAvailable := true, networkOk := false } worldEx0
        = (false, worldEx0, [UpdateEvent.downloadCall "1.2.3"])
      ∧ ∀ u, UpdateEvent.activateCall u
          ∉ (update_cursor (some "1.2.3") none { urlAvailable := true, networkOk := false }
              worldEx0).2.2 :=
  C3_update_orchestration.2.1 "1.2.3" none { urlAvailable := true, networkOk := false }
    worldEx0 (by simp) (by decide)

/-! ## Whitespace-split / join lemmas for the desktop Exec rewrite -/

/-- Every token produced by the whitespace split is nonempty and free of
whitespace, provided the accumulator is. -/
theorem splitWsAux_tokens_wf (cs : List Char) :
    ∀ acc : List Char, (∀ c ∈ acc, isPySpace c = false) →
      ∀ t ∈ splitWsAux cs acc, t ≠ [] ∧ ∀ c ∈ t, isPySpace c = false := by
  induction cs with
  | nil =>
    intro acc hacc t ht
    simp only [splitWsAux] at ht
    by_cases he : acc.isEmpty = true
    · rw [if_pos he] at ht
      simp at ht
    · rw [if_neg he] at ht
      simp only [List.mem_singleton] at ht
      subst ht
      have hne : acc ≠ [] := by
        intro hx
        rw [hx] at he
        exact he rfl
      exact ⟨by simpa using hne, fun c hc => hacc c (List.mem_reverse.mp hc)⟩
  | cons c rest ih =>
    intro acc hacc t ht
    simp only [splitWsAux] at ht
    by_cases hsp : isPySpace c = true
    · rw [if_pos hsp] at ht
      by_cases he : acc.isEmpty = true
      · rw [if_pos he] at ht
        exact ih [] (by simp) t ht
      · rw [if_neg he] at ht
        rcases List.mem_cons.mp ht with h | h
        · subst h
          have hne : acc ≠ [] := by
            intro hx
            rw [hx] at he
            exact he rfl
          exact ⟨by simpa using hne, fun d hd => hacc d (List.mem_reverse.mp hd)⟩
        · exact ih [] (by simp) t h
    · rw [if_neg hsp] at ht
      refine ih (c :: acc) ?_ t ht
      intro d hd
      rcases List.mem_cons.mp hd with h | h
      · subst h
        simpa using hsp
      · exact hacc d h

/-- Tokens of the whitespace split of any character list are nonempty and
whitespace-free. -/
theorem pySplitWs_tokens_wf (cs : List Char) :
    ∀ t ∈ pySplitWs cs, t ≠ [] ∧ ∀ c ∈ t, isPySpace c = false :=
  splitWsAux_tokens_wf cs [] (by simp)

/-- Consuming a whitespace-free chunk moves it wholesale into the
accumulator. -/
theorem splitWsAux_append_nonspace (t : List Char) (h : ∀ c ∈ t, isPySpace c = false) :
    ∀ (rest acc : List Char), splitWsAux (t ++ rest) acc = splitWsAux rest (t.reverse ++ acc) := by
  induction t with
  | nil => intro rest acc; simp
  | cons c ts ih =>
    intro rest acc
    have hc : isPySpace c = false := h c (List.mem_cons_self c ts)
    simp only [List.cons_append, splitWsAux]
    rw [if_neg (by simp [hc])]
    show splitWsAux (ts ++ rest) (c :: acc) = splitWsAux rest ((c :: ts).reverse ++ acc)
    rw [ih (fun d hd => h d (List.mem_cons_of_mem c hd)) rest (c :: acc)]
    congr 1
    simp

/-- The space-join of nonempty whitespace-free tokens splits back to
exactly those tokens: Python's " ".join round-trips through split(). -/
theorem pySplitWs_joinSpace (ts : List (List Char))
    (h : ∀ t ∈ ts, t ≠ [] ∧ ∀ c ∈ t, isPySpace c = false) :
    pySplitWs (joinSpace ts) = ts := by
  induction ts with
  | nil => rfl
  | cons t ts ih =>
    obtain ⟨htne, htns⟩ := h t (List.mem_cons_self t ts)
    rcases ts with _ | ⟨u, us⟩
    · show pySplitWs (joinSpace [t]) = [t]
      have hj : joinSpace [t] = t := rfl
      rw [hj, pySplitWs]
      have h0 := splitWsAux_append_nonspace t htns [] []
      rw [List.append_nil] at h0
      rw [h0]
      simp only [splitWsAux]
      rw [if_neg (by simpa using htne)]
      simp
    · have hj : joinSpace (t :: u :: us) = t ++ ' ' :: joinSpace (u :: us) := rfl
      rw [hj, pySplitWs, splitWsAux_append_nonspace t htns _ []]
      simp only [splitWsAux]
      rw [if_pos (by rfl), if_neg (by simpa using htne)]
      rw [show splitWsAux (joinSpace (u :: us)) [] = pySplitWs (joinSpace (u :: us)) from rfl]
      rw [ih (fun x hx => h x (List.mem_cons_of_mem t hx))]
      simp

/-- Stripping a line that starts with a non-space character and ends in a
single trailing newline preceded by a non-space character removes exactly
the newline. -/
theorem pyStrip_body_newline (body : List Char) (c0 : Char) (hhead : body.head? = some c0)
    (h0 : isPySpace c0 = false) (cl : Char) (hlast : body.getLast? = some cl)
    (hl : isPySpace cl = false) :
    pyStrip (body ++ ['\n']) = body := by
  rw [pyStrip]
  have hd : (body ++ ['\n']).dropWhile isPySpace = body ++ ['\n'] := by
    cases body with
    | nil => simp at hhead
    | cons b bs =>
      have hb : b = c0 := by simpa using hhead
      subst hb
      rw [List.cons_append, List.dropWhile_cons, if_neg (by simp [h0])]
  rw [hd, List.reverse_append]
  have hrev : (['\n'] : List Char).reverse ++ body.reverse = '\n' :: body.reverse := rfl
  rw [hrev, List.dropWhile_cons, if_pos (by rfl)]
  have hhr : body.reverse.head? = some cl := by
    rw [List.head?_reverse]
    exact hlast
  cases hbr : body.reverse with
  | nil =>
    rw [hbr] at hhr
    simp at hhr
  | cons d ds =>
    rw [hbr] at hhr
    have hdcl : d = cl := by simpa using hhr
    subst hdcl
    rw [List.dropWhile_cons, if_neg (by simp [hl])]
    rw [← hbr, List.reverse_reverse]

/-- The last character of a space-join of nonempty whitespace-free tokens
is not whitespace. -/
theorem joinSpace_getLast_nonspace (ts : List (List Char)) (hne : ts ≠ [])
    (h : ∀ t ∈ ts, t ≠ [] ∧ ∀ c ∈ t, isPySpace c = false) :
    ∃ cl, (joinSpace ts).getLast? = some cl ∧ isPySpace cl = false := by
  induction ts with
  | nil => exact absurd rfl hne
  | cons t ts ih =>
    obtain ⟨htne, htns⟩ := h t (List.mem_cons_self t ts)
    rcases ts with _ | ⟨u, us⟩
    · have hj : joinSpace [t] = t := rfl
      rw [hj]
      obtain ⟨cl, hcl⟩ := Option.isSome_iff_exists.mp (List.getLast?_isSome.mpr htne)
      exact ⟨cl, hcl, htns cl (List.mem_of_mem_getLast? hcl)⟩
    · have hj : joinSpace (t :: u :: us) = t ++ ' ' :: joinSpace (u :: us) := rfl
      obtain ⟨cl, hcl, hclns⟩ := ih (by simp) (fun x hx => h x (List.mem_cons_of_mem t hx))
      refine ⟨cl, ?_, hclns⟩
      rw [hj, List.getLast?_append_of_ne_nil t (by simp)]
      have hune : joinSpace (u :: us) ≠ [] := by
        intro hx
        rw [hx] at hcl
        simp at hcl
      have : (' ' :: joinSpace (u :: us)) = [' '] ++ joinSpace (u :: us) := rfl
      rw [this, List.getLast?_append_of_ne_nil [' '] hune]
      exact hcl

/-- The rewritten Exec line tokenises to the canonical managed path
followed by exactly the original line's trailing argument tokens. -/
theorem rewriteExecLine_tokens (line : String) :
    pySplitWs (pyStrip (rewriteExecLine line).data)
      = ("Exec=" ++ CURSOR_APPIMAGE).data :: (pySplitWs (pyStrip line.data)).tail := by
  have hwf := pySplitWs_tokens_wf (pyStrip line.data)
  have hpre_ns : ∀ c ∈ ("Exec=" ++ CURSOR_APPIMAGE).data, isPySpace c = false := by decide
  rcases hp : pySplitWs (pyStrip line.data) with _ | ⟨t, ts⟩
  · have hd : (rewriteExecLine line).data = ("Exec=" ++ CURSOR_APPIMAGE).data ++ ['\n'] := by
      simp only [rewriteExecLine, hp]
      rfl
    rw [hd, pyStrip_body_newline (("Exec=" ++ CURSOR_APPIMAGE).data) 'E' (by decide)
      (by decide) 'e' (by decide) (by decide)]
    rw [show pySplitWs (("Exec=" ++ CURSOR_APPIMAGE).data)
        = [("Exec=" ++ CURSOR_APPIMAGE).data] from by decide]
    rfl
  · rcases ts with _ | ⟨u, us⟩
    · have hd : (rewriteExecLine line).data = ("Exec=" ++ CURSOR_APPIMAGE).data ++ ['\n'] := by
        simp only [rewriteExecLine, hp]
        rfl
      rw [hd, pyStrip_body_newline (("Exec=" ++ CURSOR_APPIMAGE).data) 'E' (by decide)
        (by decide) 'e' (by decide) (by decide)]
      rw [show pySplitWs (("Exec=" ++ CURSOR_APPIMAGE).data)
          = [("Exec=" ++ CURSOR_APPIMAGE).data] from by decide]
      rfl
    · have hd : (rewriteExecLine line).data
          = ("Exec=" ++ CURSOR_APPIMAGE).data ++ (' ' :: joinSpace (u :: us)) ++ ['\n'] := by
        simp only [rewriteExecLine, hp]
      have hwf2 : ∀ x ∈ u :: us, x ≠ [] ∧ ∀ c ∈ x, isPySpace c = false := by
        intro x hx
        exact hwf x (by rw [hp]; exact List.mem_cons_of_mem t hx)
      obtain ⟨cl, hcl, hclns⟩ := joinSpace_getLast_nonspace (u :: us) (by simp) hwf2
      have hjoin_ne : joinSpace (u :: us) ≠ [] := by
        intro hx
        rw [hx] at hcl
        simp at hcl
      have hlast : (("Exec=" ++ CURSOR_APPIMAGE).data
          ++ (' ' :: joinSpace (u :: us))).getLast? = some cl := by
        rw [List.getLast?_append_of_ne_nil _ (by simp)]
        rw [show (' ' :: joinSpace (u :: us)) = [' '] ++ joinSpace (u :: us) from rfl]
        rw [List.getLast?_append_of_ne_nil _ hjoin_ne]
        exact hcl
      rw [hd, pyStrip_body_newline (("Exec=" ++ CURSOR_APPIMAGE).data
        ++ (' ' :: joinSpace (u :: us))) 'E' (by rfl) (by decide) cl hlast hclns]
      rw [pySplitWs, splitWsAux_append_nonspace _ hpre_ns]
      simp only [splitWsAux]
      rw [if_pos (show isPySpace ' ' = true from rfl)]
      rw [if_neg (show ¬ ((("Exec=" ++ CURSOR_APPIMAGE).data.reverse
          ++ ([] : List Char)).isEmpty = true) from by decide)]
      rw [show splitWsAux (joinSpace (u :: us)) [] = pySplitWs (joinSpace (u :: us)) from rfl]
      rw [pySplitWs_joinSpace (u :: us) hwf2]
      simp

/-- The line loop of update_desktop_file is a per-line map plus an
any-scan for Exec= lines. -/
theorem update_desktop_lines_eq (lines : List String) :
    update_desktop_lines lines
      = (lines.map (fun l => if "Exec=".data.isPrefixOf l.data then rewriteExecLine l else l),
         lines.any (fun l => "Exec=".data.isPrefixOf l.data)) := by
  induction lines with
  | nil => rfl
  | cons l rest ih =>
    simp only [update_desktop_lines, ih, List.map_cons, List.any_cons]
    by_cases h : "Exec=".data.isPrefixOf l.data = true
    · simp [h]
    · simp [h]

/-- Claim C9.  The desktop rewrite touches only lines beginning with
Exec=: the output has one line per input line; a line not beginning with
Exec= passes through unchanged byte-for-byte; a line beginning with Exec=
becomes an Exec= line pointing at the canonical managed path whose
whitespace tokens after the first are exactly the original line's trailing
argument tokens; and the file is written back exactly when some Exec= line
exists. -/
theorem C9_desktop_rewrite_only_exec_lines :
    ∀ (lines : List String),
      ((update_desktop_lines lines).1).length = lines.length
        ∧ (update_desktop_lines lines).2 = lines.any (fun l => "Exec=".data.isPrefixOf l.data)
        ∧ ∀ (i : Nat) (l nl : String), lines[i]? = some l →
            ((update_desktop_lines lines).1)[i]? = some nl →
            ("Exec=".data.isPrefixOf l.data = false → nl = l)
              ∧ ("Exec=".data.isPrefixOf l.data = true →
                  pySplitWs (pyStrip nl.data)
                    = ("Exec=" ++ CURSOR_APPIMAGE).data
                        :: (pySplitWs (pyStrip l.data)).tail) := by
  intro lines
  rw [update_desktop_lines_eq]
  refine ⟨by simp, rfl, ?_⟩
  intro i l nl hl hnl
  rw [List.getElem?_map, hl] at hnl
  have hnl2 : (if "Exec=".data.isPrefixOf l.data then rewriteExecLine l else l) = nl := by
    simpa using hnl
  constructor
  · intro hfalse
    rw [if_neg (by simp [hfalse])] at hnl2
    exact hnl2.symm
  · intro htrue
    rw [if_pos htrue] at hnl2
    rw [← hnl2]
    exact rewriteExecLine_tokens l

/-- Claim C9 witness: the theorem applied to a concrete two-line desktop
file; the Exec= line gains the canonical path and keeps its arguments, and
the rewritten line is computed explicitly. -/
theorem C9_witness :
    pySplitWs (pyStrip (rewriteExecLine "Exec=/opt/old/cursor.AppImage --no-sandbox %U\n").data)
        = ("Exec=" ++ CURSOR_APPIMAGE).data
            :: (pySplitWs (pyStrip ("Exec=/opt/old/cursor.AppImage --no-sandbox %U\n" : String).data)).tail
      ∧ rewriteExecLine "Exec=/opt/old/cursor.AppImage --no-sandbox %U\n"
          = "Exec=~/.local/bin/cursor.AppImage --no-sandbox %U\n" := by
  have h := (C9_desktop_rewrite_only_exec_lines
      ["[Desktop Entry]\n", "Exec=/opt/old/cursor.AppImage --no-sandbox %U\n"]).2.2 1
      "Exec=/opt/old/cursor.AppImage --no-sandbox %U\n"
      (rewriteExecLine "Exec=/opt/old/cursor.AppImage --no-sandbox %U\n") (by rfl) (by rfl)
  exact ⟨h.2 (by decide), by decide⟩

/-! ## version.py: extract_version_from_appimage and the filename parser -/

/-- Python substring membership (the in operator on str). -/
def hasSub (pat : List Char) : List Char → Bool
  | [] => pat.isEmpty
  | c :: rest => pat.isPrefixOf (c :: rest) || hasSub pat rest

/-- Python line.split(sep, 1)[1] for a single-character separator known to
occur: everything after the first occurrence. -/
def afterFirstChar (sep : Char) : List Char → List Char
  | [] => []
  | c :: rest => if c = sep then rest else afterFirstChar sep rest

/-- Match a literal at the start of the input, returning the remainder. -/
def dropLiteral (pat cs : List Char) : Option (List Char) :=
  if pat.isPrefixOf cs then some (cs.drop pat.length) else none

/-- Characters matched by the regex class [0-9.]. -/
def isDigitOrDot (c : Char) : Bool := c.isDigit || c = '.'

/-- Attempt of the regex pattern quote-version-quote colon quote
[0-9.]+ quote at the start of the input, i.e. the body of
re.search applied at one position:
literal "version" in quotes, optional whitespace, a colon, optional
whitespace, then a quoted nonempty run of digits and dots (the capture
group).  The greedy [0-9.]+ needs no backtracking because the closing
quote is not in the class. -/
def matchQVersionAt (cs : List Char) : Option (List Char) :=
  match dropLiteral ("\"version\"").data cs with
  | none => none
  | some r1 =>
    match r1.dropWhile isPySpace with
    | ':' :: r3 =>
      match r3.dropWhile isPySpace with
      | '"' :: r5 =>
        let body := r5.takeWhile isDigitOrDot
        match r5.dropWhile isDigitOrDot with
        | '"' :: _ => if body.isEmpty then none else some body
        | _ => none
      | _ => none
    | _ => none

/-- re.search of the quoted-version pattern: leftmost position at which
the pattern matches. -/
def regexQVersionSearch : List Char → Option (List Char)
  | [] => none
  | c :: rest =>
    match matchQVersionAt (c :: rest) with
    | some v => some v
    | none => regexQVersionSearch rest

/-- Match backslash-d+ dot backslash-d+ dot backslash-d+ at the start of
the input.  Greediness needs no backtracking: a shortened digit run would
leave a digit where the dot is required. -/
def matchVersionAt (cs : List Char) : Option (List Char) :=
  let d1 := cs.takeWhile Char.isDigit
  if d1.isEmpty then none
  else
    match cs.dropWhile Char.isDigit with
    | '.' :: r2 =>
      let d2 := r2.takeWhile Char.isDigit
      if d2.isEmpty then none
      else
        match r2.dropWhile Char.isDigit with
        | '.' :: r4 =>
          let d3 := r4.takeWhile Char.isDigit
          if d3.isEmpty then none
          else some (d1 ++ '.' :: d2 ++ '.' :: d3)
        | _ => none
    | _ => none

/-- Leftmost match of the dotted-numeric pattern. -/
def searchVersion : List Char → Option (List Char)
  | [] => none
  | c :: rest =>
    match matchVersionAt (c :: rest) with
    | some v => some v
    | none => searchVersion rest

/-- version.py extract_version_from_filename.  Modelled from the spec:
VERSION_PATTERN lives in config.py, which is not among the sources; per
spec section 4.1 the parser accepts the first substring matching a strict
digits dot digits dot digits pattern inside the filename. -/
def extract_version_from_filename (filename : String) : Option String :=
  (searchVersion filename.data).map (fun cs => String.mk cs)

/-- One probed AppImage file as extract_version_from_appimage observes it:
its filename; whether running it with the extract flag succeeded
(returncode 0, no exception); for each package.json found under
resources/app (in glob order) the truthy version field when the file is
readable JSON (none covers unreadable, undecodable, absent or falsy);
each readable .desktop file's lines (none for an unreadable file); and
the strings(1) scan: whether the subprocess succeeded and its output
lines. -/
structure AppImage where
  name : String
  extractOk : Bool
  packageJsonVersions : List (Option String)
  desktopFiles : List (Option (List String))
  stringsOk : Bool
  stringsLines : List String

/-- First truthy version field among the extracted package.json files. -/
def packageProbe (a : AppImage) : Option String :=
  a.packageJsonVersions.findSome? id

/-- Scan one extracted .desktop file: the first stripped line starting
with X-AppImage-Version= whose value (after the first equals sign,
stripped) is nonempty. -/
def desktopFileProbe (lines : List String) : Option String :=
  lines.findSome? (fun line =>
    let l := pyStrip line.data
    if ("X-AppImage-Version=").data.isPrefixOf l then
      let v := pyStrip (afterFirstChar '=' l)
      if v.isEmpty then none else some (String.mk v)
    else none)

/-- First version found across the extracted .desktop files (unreadable
files are skipped). -/
def desktopProbe (a : AppImage) : Option String :=
  a.desktopFiles.findSome? (fun f => f.bind desktopFileProbe)

/-- The extraction branch: only when the appimage-extract run succeeded,
package.json first, then the .desktop files. -/
def extractDirProbe (a : AppImage) : Option String :=
  if a.extractOk then
    match packageProbe a with
    | some v => some v
    | none => desktopProbe a
  else none

/-- One line of strings(1) output, as scanned by the source: if the line
contains a quoted version key and a colon, try the regex and return its
capture; otherwise (or when the regex fails) a line containing
X-AppImage-Version= yields what follows the line's first equals sign,
stripped, when nonempty. -/
def stringsLineProbe (line : String) : Option String :=
  let first :=
    if hasSub ("\"version\"").data line.data && hasSub ([':']) line.data then
      regexQVersionSearch line.data
    else none
  match first with
  | some v => some (String.mk v)
  | none =>
    if hasSub ("X-AppImage-Version=").data line.data then
      let v := pyStrip (afterFirstChar '=' line.data)
      if v.isEmpty then none else some (String.mk v)
    else none

/-- The strings(1) branch: only when the subprocess succeeded, first line
that yields a version. -/
def stringsProbe (a : AppImage) : Option String :=
  if a.stringsOk then a.stringsLines.findSome? stringsLineProbe else none

/-- version.py extract_version_from_appimage: try the extracted package
metadata (package.json, then .desktop X-AppImage-Version), then the
strings scan, and only as the final fallback the filename. -/
def extract_version_from_appimage (a : AppImage) : Option String :=
  match extractDirProbe a with
  | some v => some v
  | none =>
    match stringsProbe a with
    | some v => some v
    | none => extract_version_from_filename a.name

/-- The AppImage of the claim C2 counterexample: the filename carries the
parseable version 9.9.9 while the embedded package.json says 1.0.0. -/
def appImageEx0 : AppImage :=
  { name := "cursor-9.9.9.AppImage", extractOk := true,
    packageJsonVersions := [some "1.0.0"], desktopFiles := [],
    stringsOk := false, stringsLines := [] }

/-- Claim C2 counterexample.  The claim says each candidate path derives
its version by trying the filename first and unpacking the binary only if
that fails.  At this input the filename parses to 9.9.9, yet
extract_version_from_appimage returns the embedded package metadata's
1.0.0: the code consults the unpacked metadata first and the filename only
as the last fallback. -/
theorem C2_counterexample :
    extract_version_from_appimage appImageEx0 = some "1.0.0"
      ∧ extract_version_from_filename appImageEx0.name = some "9.9.9" :=
  ⟨by decide, by decide⟩

/-- Claim C2 as amended.  Each candidate path yields a version through, in
order: (a) unpacking the binary into a scratch directory and reading its
embedded package metadata (package.json first, then a .desktop
X-AppImage-Version entry), (b) only if that fails, scanning the binary's
embedded strings for a version token, (c) only if that fails, parsing the
filename. -/
theorem C2_probe_order :
    ∀ a : AppImage,
      (∀ v, extractDirProbe a = some v → extract_version_from_appimage a = some v)
        ∧ (extractDirProbe a = none → ∀ v, stringsProbe a = some v →
            extract_version_from_appimage a = some v)
        ∧ (extractDirProbe a = none → stringsProbe a = none →
            extract_version_from_appimage a = extract_version_from_filename a.name)
        ∧ (a.extractOk = false → extractDirProbe a = none)
        ∧ (a.extractOk = true → ∀ v, packageProbe a = some v →
            extractDirProbe a = some v) := by
  intro a
  refine ⟨?_, ?_, ?_, ?_, ?_⟩
  · intro v h
    simp [extract_version_from_appimage, h]
  · intro h v h2
    simp [extract_version_from_appimage, h, h2]
  · intro h h2
    simp [extract_version_from_appimage, h, h2]
  · intro h
    simp [extractDirProbe, h]
  · intro h v h2
    simp [extractDirProbe, h, h2]

/-- Claim C2 (amended) witness: the amended theorem applied at the
counterexample AppImage, whose extraction branch yields 1.0.0. -/
theorem C2_witness :
    extract_version_from_appimage appImageEx0 = some "1.0.0" :=
  (C2_probe_order appImageEx0).1 "1.0.0" (by decide)
